import Mathlib

/-!
Verification development for the adaptive recipe-cleaning pipeline of the
recipe-remix repository (src/recipes/adaptive_cleaner.py, recipe_cleaner.py,
models.py).  Python dictionaries holding ingredient and instruction records
are mutable objects shared by aliasing; we embed them as a store (heap) of
records addressed by natural-number references, so that in-place mutation
through a shallow top-level copy is observable.  The regular-expression
engine (re.compile / Pattern.sub) is external to the repository and is
embedded as a parameter: `compile pat` returns `Option Compiled`, where
`Option.none` models `re.error` being raised at compile time, and a
`Compiled` takes the replacement and the subject string and returns
`Option String`, `Option.none` modelling an exception raised by `sub`.
Exceptions of fallible code are modelled with `Option`; machine-level
concerns do not arise (the counters are unbounded Python ints).
-/

/-- A compiled regex: replacement → subject → result, `Option.none` = raise. -/
def Compiled : Type := String → String → Option String

/-- CleaningRule row (src/recipes/models.py, class CleaningRule). -/
structure CleaningRule where
  id : Nat
  pattern : String
  replacement : String
  category : String
  example_before : String
  example_after : String
  success_count : Int
  failure_count : Int
  is_active : Bool
  created_from_feedback : Bool
deriving DecidableEq, Repr

/-- success_rate property (models.py lines 249-252): success/(success+failure)*100
    with Python true division, 0 when no attempts. -/
def success_rate (r : CleaningRule) : ℚ :=
  if 0 < r.success_count + r.failure_count then
    (r.success_count : ℚ) / ((r.success_count : ℚ) + (r.failure_count : ℚ)) * 100
  else 0

/-- An ingredient record `{name?, quantity?}`; a missing key is `Option.none`.
    `quantity` is kept as the string form (`str(...)` is applied by the code
    before substitution). -/
structure IngObj where
  name : Option String
  quantity : Option String
deriving DecidableEq, Repr

/-- An instruction record `{description?}`. -/
structure InstrObj where
  description : Option String
deriving DecidableEq, Repr

/-- The heap of mutable ingredient / instruction dictionaries; a reference is
    an index into the corresponding list. -/
structure Store where
  ings : List IngObj
  instrs : List InstrObj
deriving DecidableEq, Repr

/-- A recipe mapping as the rule engine sees it: the top level holds the
    `description` string directly, and the nested records by reference.
    A missing key is `Option.none`.  Copying a `RecipeDict` value models
    Python's shallow `data.copy()`: references are shared. -/
structure RecipeDict where
  description : Option String
  ingredients : Option (List Nat)
  instructions : Option (List Nat)
deriving DecidableEq, Repr

/-- A fully materialised (deep-copied) recipe value, as produced by the
    `json.loads(json.dumps(...))` snapshot. -/
structure RecipeVal where
  description : Option String
  ingredients : Option (List IngObj)
  instructions : Option (List InstrObj)
deriving DecidableEq, Repr

/-- Deep-copy a recipe mapping out of the store (json round-trip snapshot). -/
def materialize (st : Store) (d : RecipeDict) : RecipeVal :=
  { description := d.description
    ingredients := d.ingredients.map (fun refs =>
      refs.map (fun r => (st.ings.get? r).getD { name := Option.none, quantity := Option.none }))
    instructions := d.instructions.map (fun refs =>
      refs.map (fun r => (st.instrs.get? r).getD { description := Option.none })) }

/-- Increment `success_count` of the rule row with the given id
    (`rule.success_count = F('success_count') + 1; rule.save(...)`). -/
def incSuccess (db : List CleaningRule) (id : Nat) : List CleaningRule :=
  db.map (fun r => if r.id = id then { r with success_count := r.success_count + 1 } else r)

/-- Increment `failure_count` of the rule row with the given id. -/
def incFailure (db : List CleaningRule) (id : Nat) : List CleaningRule :=
  db.map (fun r => if r.id = id then { r with failure_count := r.failure_count + 1 } else r)

/-- One ingredient dictionary under a rule (adaptive_cleaner.py lines 52-57):
    substitute into `name` if present, then into `quantity` if present.
    Returns the (possibly partially) updated record and whether both
    substitutions ran without raising. -/
def applyIngObj (sub : String → Option String) (o : IngObj) : IngObj × Bool :=
  match o.name with
  | Option.some n =>
    match sub n with
    | Option.none => (o, false)
    | Option.some n2 =>
      let o1 : IngObj := { o with name := Option.some n2 }
      match o1.quantity with
      | Option.some q =>
        match sub q with
        | Option.none => (o1, false)
        | Option.some q2 => ({ o1 with quantity := Option.some q2 }, true)
      | Option.none => (o1, true)
  | Option.none =>
    match o.quantity with
    | Option.some q =>
      match sub q with
      | Option.none => (o, false)
      | Option.some q2 => ({ o with quantity := Option.some q2 }, true)
    | Option.none => (o, true)

/-- Walk `data['ingredients']`, mutating each referenced record in the heap;
    an exception stops the loop, keeping the mutations already made. -/
def applyIngList (sub : String → Option String) : List Nat → List IngObj → List IngObj × Bool
  | [], ings => (ings, true)
  | r :: rs, ings =>
    match ings.get? r with
    | Option.none => applyIngList sub rs ings
    | Option.some o =>
      let p := applyIngObj sub o
      let ings2 := ings.set r p.1
      if p.2 then applyIngList sub rs ings2 else (ings2, false)

/-- One instruction dictionary under a rule (lines 59-62). -/
def applyInstrObj (sub : String → Option String) (o : InstrObj) : InstrObj × Bool :=
  match o.description with
  | Option.some dsc =>
    match sub dsc with
    | Option.none => (o, false)
    | Option.some d2 => ({ o with description := Option.some d2 }, true)
  | Option.none => (o, true)

/-- Walk `data['instructions']` mutating each referenced record. -/
def applyInstrList (sub : String → Option String) : List Nat → List InstrObj → List InstrObj × Bool
  | [], instrs => (instrs, true)
  | r :: rs, instrs =>
    match instrs.get? r with
    | Option.none => applyInstrList sub rs instrs
    | Option.some o =>
      let p := applyInstrObj sub o
      let instrs2 := instrs.set r p.1
      if p.2 then applyInstrList sub rs instrs2 else (instrs2, false)

/-- RuleBasedCleaner._apply_rule_to_data (adaptive_cleaner.py lines 47-76).
    Compile the rule's pattern; dispatch on the rule's category and presence
    of the corresponding field (note: no branch handles category 'general');
    on success increment `success_count`, on any exception increment
    `failure_count`.  Returns the updated heap, rule table and mapping. -/
def applyRuleToData (compile : String → Option Compiled) (st : Store)
    (db : List CleaningRule) (d : RecipeDict) (rule : CleaningRule) :
    Store × List CleaningRule × RecipeDict :=
  match compile rule.pattern with
  | Option.none => (st, incFailure db rule.id, d)
  | Option.some c =>
    let sub := c rule.replacement
    if rule.category = "ingredient" ∧ d.ingredients.isSome then
      let p := applyIngList sub (d.ingredients.getD []) st.ings
      ({ st with ings := p.1 },
       (if p.2 then incSuccess db rule.id else incFailure db rule.id), d)
    else if rule.category = "instruction" ∧ d.instructions.isSome then
      let p := applyInstrList sub (d.instructions.getD []) st.instrs
      ({ st with instrs := p.1 },
       (if p.2 then incSuccess db rule.id else incFailure db rule.id), d)
    else if rule.category = "description" ∧ d.description.isSome then
      match sub (d.description.getD "") with
      | Option.some s2 => (st, incSuccess db rule.id, { d with description := Option.some s2 })
      | Option.none => (st, incFailure db rule.id, d)
    else
      (st, incSuccess db rule.id, d)

/-- The four per-category lists of loaded active rules
    (RuleBasedCleaner.load_rules, lines 23-30). -/
structure Rules where
  ingredient : List CleaningRule
  instruction : List CleaningRule
  description : List CleaningRule
  general : List CleaningRule
deriving Repr

/-- load_rules: re-read only active rules, partitioned by category.  The
    database ordering of the queryset is abstracted as the list order. -/
def load_rules (db : List CleaningRule) : Rules :=
  { ingredient := db.filter (fun r => r.category == "ingredient" && r.is_active)
    instruction := db.filter (fun r => r.category == "instruction" && r.is_active)
    description := db.filter (fun r => r.category == "description" && r.is_active)
    general := db.filter (fun r => r.category == "general" && r.is_active) }

/-- `self.rules.get(category, [])`. -/
def rulesGet (rules : Rules) (c : String) : List CleaningRule :=
  if c = "ingredient" then rules.ingredient
  else if c = "instruction" then rules.instruction
  else if c = "description" then rules.description
  else if c = "general" then rules.general
  else []

/-- One engine state-transformer step: apply one rule to the accumulator. -/
def ruleStep (compile : String → Option Compiled)
    (acc : Store × List CleaningRule × RecipeDict) (r : CleaningRule) :
    Store × List CleaningRule × RecipeDict :=
  applyRuleToData compile acc.1 acc.2.1 acc.2.2 r

/-- RuleBasedCleaner.apply_rules (lines 32-45): shallow-copy the top-level
    mapping (value copy of `RecipeDict`, sharing all references), apply all
    general rules first, then the rules of the requested category, if any. -/
def apply_rules (compile : String → Option Compiled) (st : Store)
    (db : List CleaningRule) (rules : Rules) (d : RecipeDict)
    (category : Option String) : Store × List CleaningRule × RecipeDict :=
  let acc1 := rules.general.foldl (ruleStep compile) (st, db, d)
  match category with
  | Option.none => acc1
  | Option.some c => (rulesGet rules c).foldl (ruleStep compile) acc1

/-- RuleBasedCleaner.post_process (lines 78-87): reload the rules once, then
    run apply_rules for each of the four categories in the fixed order. -/
def post_process (compile : String → Option Compiled) (st : Store)
    (db : List CleaningRule) (d : RecipeDict) : Store × List CleaningRule × RecipeDict :=
  let rules := load_rules db
  ["general", "ingredient", "instruction", "description"].foldl
    (fun acc c => apply_rules compile acc.1 acc.2.1 rules acc.2.2 (Option.some c))
    (st, db, d)

/-- A concrete literal, case-insensitive substitution engine used to
    instantiate the abstract regex parameter in witnesses: fuel-indexed scan
    replacing every non-overlapping occurrence of the literal pattern. -/
def startsWithCI : List Char → List Char → Bool
  | [], _ => true
  | _ :: _, [] => false
  | p :: ps, c :: cs => p.toLower == c.toLower && startsWithCI ps cs

/-- Fuel-indexed replacement scan (fuel an upper bound on the subject length). -/
def replaceCIGo (pat repl : List Char) : Nat → List Char → List Char
  | _, [] => []
  | 0, s => s
  | Nat.succ n, c :: cs =>
    if pat ≠ [] ∧ startsWithCI pat (c :: cs) then
      repl ++ replaceCIGo pat repl n (List.drop (pat.length - 1) cs)
    else
      c :: replaceCIGo pat repl n cs

/-- Case-insensitive literal replacement of every occurrence of `pat`. -/
def replaceCI (pat repl s : String) : String :=
  String.mk (replaceCIGo pat.data repl.data s.data.length s.data)

/-- Concrete regex-engine instantiation for witnesses: the pattern "(" fails
    to compile (as in Python), every other pattern is matched literally and
    case-insensitively, and substitution never raises. -/
def simpleCompile (pat : String) : Option Compiled :=
  if pat = "(" then Option.none
  else Option.some (fun repl input => Option.some (replaceCI pat repl input))

/-- A RecipeCleaningFeedback row (models.py, class RecipeCleaningFeedback),
    restricted to the fields the analyzer reads.  The store is kept in
    most-recent-first order (its `-created_at` default ordering). -/
structure Feedback where
  feedback_type : String
  original_data : RecipeVal
  cleaned_data : RecipeVal
  user_corrections : Option RecipeVal
deriving DecidableEq, Repr

/-- The empty recipe value. -/
def emptyRecipeVal : RecipeVal :=
  { description := Option.none, ingredients := Option.none, instructions := Option.none }

/-- Python's re.escape special-character set (3.7+):
    parentheses, brackets, braces, ? * + - | ^ $ backslash . ampersand ~ #,
    space, tab, newline, carriage return, vertical tab, form feed. -/
def reSpecialChars : List Char :=
  [Char.ofNat 40, Char.ofNat 41, Char.ofNat 91, Char.ofNat 93, Char.ofNat 123,
   Char.ofNat 125, Char.ofNat 63, Char.ofNat 42, Char.ofNat 43, Char.ofNat 45,
   Char.ofNat 124, Char.ofNat 94, Char.ofNat 36, Char.ofNat 92, Char.ofNat 46,
   Char.ofNat 38, Char.ofNat 126, Char.ofNat 35, Char.ofNat 32, Char.ofNat 9,
   Char.ofNat 10, Char.ofNat 13, Char.ofNat 11, Char.ofNat 12]

/-- re.escape: prefix every special character with a backslash. -/
def reEscape (s : String) : String :=
  String.mk (s.data.flatMap (fun c => if c ∈ reSpecialChars then [Char.ofNat 92, c] else [c]))

/-- The positionally-differing ingredient-name keys contributed by one
    feedback entry (discover_patterns, lines 129-134): zip the original and
    corrected ingredient lists, keep indices where the names differ, and key
    by the two names with '' as the missing-key default. -/
def pairsOf (f : Feedback) : List (String × String) :=
  match f.original_data.ingredients, ((f.user_corrections.getD emptyRecipeVal).ingredients) with
  | Option.some os, Option.some cs =>
    ((os.zip cs).filter (fun p => p.1.name ≠ p.2.name)).map
      (fun p => (p.1.name.getD "", p.2.name.getD ""))
  | _, _ => []

/-- The feedback rows discover_patterns scans: feedback_type
    'needs_improvement' with non-null user_corrections (lines 118-121). -/
def fbFilter (fbs : List Feedback) : List Feedback :=
  fbs.filter (fun f => f.feedback_type == "needs_improvement" && f.user_corrections.isSome)

/-- All correction-key occurrences, in scan order. -/
def occList (fbs : List Feedback) : List (String × String) :=
  (fbFilter fbs).flatMap pairsOf

/-- `correction_map[key] = correction_map.get(key, 0) + 1` over an
    insertion-ordered association list (Python dict semantics). -/
def bump (m : List ((String × String) × Nat)) (k : String × String) :
    List ((String × String) × Nat) :=
  if m.any (fun e => e.1 = k) then
    m.map (fun e => if e.1 = k then (e.1, e.2 + 1) else e)
  else m ++ [(k, 1)]

/-- The correction map accumulated over all scanned feedback. -/
def correctionMap (fbs : List Feedback) : List ((String × String) × Nat) :=
  (occList fbs).foldl bump []

/-- FeedbackAnalyzer.discover_patterns (lines 113-149): every key whose count
    reaches min_occurrences yields (re.escape original, corrected,
    'ingredient'); description diffing is a no-op (`pass`). -/
def discover_patterns (fbs : List Feedback) (minOcc : Nat) : List (String × String × String) :=
  ((correctionMap fbs).filter (fun e => minOcc ≤ e.2)).map
    (fun e => (reEscape e.1.1, e.1.2, "ingredient"))

/-- Total number of positionally-differing occurrences of the pair (o, c)
    over the scanned feedback: the claim's "occurrence count". -/
def occCount (fbs : List Feedback) (o c : String) : Nat :=
  (occList fbs).count (o, c)

/-- FeedbackAnalyzer.get_similar_examples (lines 151-164): up to `limit`
    most-recent 'good' entries as before/after pairs. -/
def get_similar_examples (fdb : List Feedback) (limit : Nat) : List (RecipeVal × RecipeVal) :=
  ((fdb.filter (fun f => f.feedback_type == "good")).take limit).map
    (fun f => (f.original_data, f.cleaned_data))

/-- The base prompt literal of FeedbackAnalyzer.generate_prompt (lines 95-103). -/
def basePromptText : String :=
  "You are a recipe data cleaning assistant. Your job is to:\n1. Fix spelling and grammar errors\n2. Standardize ingredient formats (e.g., \"1 tsp\" instead of \"1 teaspoon\")\n3. Make instructions clear and concise\n4. Remove any promotional content or irrelevant information\n5. Ensure quantities are properly formatted\n\nReturn cleaned data in the exact same JSON structure as provided.\nDo not add or remove fields, only clean the existing content."

/-- FeedbackAnalyzer.generate_prompt (lines 93-111): append up to 3 few-shot
    examples when any are given (the unused recipe_data argument is omitted;
    a None argument is modelled by the empty list).  `showD` stands for
    Python's f-string rendering of the stored JSON. -/
def generate_prompt (showD : RecipeVal → String) (similar : List (RecipeVal × RecipeVal)) : String :=
  if similar.isEmpty then basePromptText
  else
    basePromptText ++ "\n\nHere are examples of good cleaning corrections:\n" ++
      String.join ((similar.take 3).map
        (fun p => "\nOriginal: " ++ showD p.1 ++ "\nCleaned: " ++ showD p.2 ++ "\n"))

/-- `CleaningRule.objects.filter(pattern=..., replacement=..., category=...).exists()`. -/
def ruleExists (db : List CleaningRule) (p : String × String × String) : Bool :=
  db.any (fun x => x.pattern == p.1 && x.replacement == p.2.1 && x.category == p.2.2)

/-- `CleaningRule.objects.create(...)` of learn_from_feedback (lines 234-241):
    default counters, active, example fields mirroring pattern/replacement. -/
def mkLearnedRule (p : String × String × String) (nid : Nat) : CleaningRule :=
  { id := nid, pattern := p.1, replacement := p.2.1, category := p.2.2,
    example_before := p.1, example_after := p.2.1,
    success_count := 0, failure_count := 0,
    is_active := true, created_from_feedback := true }

/-- The creation loop of learn_from_feedback.  `fuel = Option.some k` injects
    an exception at the k-th loop position (k = list length models a failure
    after the loop, e.g. in the engine reload): the except branch discards
    the accumulated new-rule list and returns [], keeping the rows already
    created.  `Option.none` means no exception occurs. -/
def learnGo : List (String × String × String) → List CleaningRule → Nat →
    List CleaningRule → Option Nat →
    List CleaningRule × List CleaningRule × Nat
  | [], db, nid, acc, fuel =>
    match fuel with
    | Option.some 0 => ([], db, nid)
    | _ => (acc.reverse, db, nid)
  | p :: ps, db, nid, acc, fuel =>
    match fuel with
    | Option.some 0 => ([], db, nid)
    | _ =>
      let fuel2 := fuel.map (fun k => k - 1)
      if ruleExists db p then learnGo ps db nid acc fuel2
      else learnGo ps (db ++ [mkLearnedRule p nid]) (nid + 1) (mkLearnedRule p nid :: acc) fuel2

/-- AdaptiveRecipeCleaner.learn_from_feedback (lines 219-251): discover
    patterns with the default threshold 3, create each genuinely new rule,
    return the new rules; on any internal failure return [] (never raise).
    `nid` supplies fresh database ids.  Returns (new rules, rule table, next id). -/
def learn_from_feedback (fbs : List Feedback) (db : List CleaningRule) (nid : Nat)
    (excAt : Option Nat) : List CleaningRule × List CleaningRule × Nat :=
  learnGo (discover_patterns fbs 3) db nid [] excAt

/-- Exception-injection points for the adaptive sequence after the snapshot:
    during the similar-example fetch, during the semantic-cleaner call
    (after the prompt override was installed), or during post-processing
    (after the prompt was restored).  Rule application inside the pre-pass
    catches its own errors and cannot raise (lines 71-74). -/
inductive ExcPoint
  | noExc
  | atExamples
  | atAI
  | atPost
deriving DecidableEq, Repr

/-- Append a materialised recipe value to the heap as fresh records, giving
    the dictionary the semantic cleaner's parsed output becomes. -/
def allocRecipe (st : Store) (v : RecipeVal) : Store × RecipeDict :=
  let ingRefs := v.ingredients.map (fun l => (List.range l.length).map (fun i => st.ings.length + i))
  let instrRefs := v.instructions.map (fun l => (List.range l.length).map (fun i => st.instrs.length + i))
  ({ ings := st.ings ++ v.ingredients.getD [], instrs := st.instrs ++ v.instructions.getD [] },
   { description := v.description, ingredients := ingRefs, instructions := instrRefs })

/-- The observable outcome of one AdaptiveRecipeCleaner.clean_recipe call:
    the returned pair (cleaned, original snapshot), plus the final heap, rule
    table, and the base cleaner's system_prompt attribute after the call. -/
structure AdaptiveResult where
  cleaned : RecipeVal
  original : RecipeVal
  st : Store
  db : List CleaningRule
  systemPrompt : String
deriving Repr

/-- AdaptiveRecipeCleaner.clean_recipe (adaptive_cleaner.py lines 175-217).
    `baseClean` is modelled from the spec: RecipeCleaner, the Semantic
    Cleaner the orchestrator imports, is absent from src/; per spec section
    4.2 it is a cleaning function of its configured system prompt and the
    input recipe, and it never raises (fail-open).  `prompt` is the base
    cleaner's system_prompt attribute at entry; `rules` the engine's loaded
    rules.  The fallback (lines 213-217) calls the base cleaner on the live
    recipe_data under whatever system_prompt is installed at that moment:
    the enriched prompt is restored only on the non-raising path (line 206),
    so an exception in the cleaner call itself (atAI) leaves it installed. -/
def adaptiveCleanRecipe (compile : String → Option Compiled)
    (baseClean : String → RecipeVal → RecipeVal) (showD : RecipeVal → String)
    (fdb : List Feedback) (exc : ExcPoint) (st : Store) (db : List CleaningRule)
    (rules : Rules) (prompt : String) (d : RecipeDict) (enableAdaptive : Bool) :
    AdaptiveResult :=
  let original := materialize st d
  if !enableAdaptive then
    { cleaned := baseClean prompt (materialize st d), original := original,
      st := st, db := db, systemPrompt := prompt }
  else
    let acc := apply_rules compile st db rules d Option.none
    match exc with
    | ExcPoint.atExamples =>
      { cleaned := baseClean prompt (materialize acc.1 d), original := original,
        st := acc.1, db := acc.2.1, systemPrompt := prompt }
    | _ =>
      let examples := get_similar_examples fdb 5
      let enhanced := generate_prompt showD examples
      match exc with
      | ExcPoint.atAI =>
        { cleaned := baseClean enhanced (materialize acc.1 d), original := original,
          st := acc.1, db := acc.2.1, systemPrompt := enhanced }
      | _ =>
        let ai := baseClean enhanced (materialize acc.1 acc.2.2)
        match exc with
        | ExcPoint.atPost =>
          { cleaned := baseClean prompt (materialize acc.1 d), original := original,
            st := acc.1, db := acc.2.1, systemPrompt := prompt }
        | _ =>
          let al := allocRecipe acc.1 ai
          let post := post_process compile al.1 acc.2.1 al.2
          { cleaned := materialize post.1 post.2.2, original := original,
            st := post.1, db := post.2.1, systemPrompt := prompt }

/-- The parameters of one full pipeline run, for stating properties over
    arbitrary sequences of runs. -/
structure RunArgs where
  compile : String → Option Compiled
  baseClean : String → RecipeVal → RecipeVal
  showD : RecipeVal → String
  fdb : List Feedback
  exc : ExcPoint
  st : Store
  rules : Rules
  prompt : String
  d : RecipeDict
  enableAdaptive : Bool

/-- The rule table after one pipeline run. -/
def runPipeline (a : RunArgs) (db : List CleaningRule) : List CleaningRule :=
  (adaptiveCleanRecipe a.compile a.baseClean a.showD a.fdb a.exc a.st db a.rules
    a.prompt a.d a.enableAdaptive).db

/-- The rule table after a sequence of pipeline runs. -/
def runAll (runs : List RunArgs) (db : List CleaningRule) : List CleaningRule :=
  runs.foldl (fun acc a => runPipeline a acc) db

/-- Total success_count over the rows with a given id. -/
def succCount (db : List CleaningRule) (id : Nat) : Int :=
  ((db.filter (fun x => x.id == id)).map (fun x => x.success_count)).sum

/-- Total failure_count over the rows with a given id. -/
def failCount (db : List CleaningRule) (id : Nat) : Int :=
  ((db.filter (fun x => x.id == id)).map (fun x => x.failure_count)).sum

/-- Pointwise non-decrease of both counters. -/
def counterLE (a b : List CleaningRule) : Prop :=
  ∀ id : Nat, succCount a id ≤ succCount b id ∧ failCount a id ≤ failCount b id

/-- A JSON scalar as RecipeCleaningService handles it: string or integer. -/
inductive JVal
  | s (v : String)
  | n (v : Int)
deriving DecidableEq, Repr

/-- A JSON object is an insertion-ordered association list. -/
abbrev JObj : Type := List (String × JVal)

/-- An element of a scraped ingredients/instructions list: a dict or a string. -/
inductive Item
  | str (v : String)
  | obj (o : JObj)
deriving DecidableEq, Repr

/-- Key lookup in a JSON object. -/
def getJ (o : JObj) (k : String) : Option JVal :=
  (o.find? (fun p => p.1 == k)).map (fun p => p.2)

/-- Python dict assignment: replace the value in place, or append the key. -/
def setJ (o : JObj) (k : String) (v : JVal) : JObj :=
  if o.any (fun p => p.1 == k) then o.map (fun p => if p.1 == k then (p.1, v) else p)
  else o ++ [(k, v)]

/-- Python str() of a scalar. -/
def jvalStr : JVal → String
  | JVal.s v => v
  | JVal.n v => toString v

/-- Python str() of a list element: a string renders as itself, a dict as its
    repr (string-quote escaping inside values is not modelled). -/
def pyStr : Item → String
  | Item.str v => v
  | Item.obj o =>
    let q : String := String.mk [Char.ofNat 39]
    "\x7b" ++ String.intercalate ", "
      (o.map (fun p => q ++ p.1 ++ q ++ ": " ++
        (match p.2 with
         | JVal.s v => q ++ v ++ q
         | JVal.n v => toString v))) ++ "\x7d"

/-- The recipe mapping RecipeCleaningService.clean_recipe consumes.  Only the
    four fields the service touches are modelled; `recipe_data.copy()` and
    untouched keys are the identity on the rest. -/
structure SRecipe where
  title : Option String
  description : Option String
  ingredients : Option (List Item)
  instructions : Option (List Item)
deriving DecidableEq, Repr

/-- The backend outcome of each of the service's three LLM calls, as observed
    after response parsing: `Option.none` models the call raising or
    `json.loads` failing; for ingredients/instructions a success carries the
    parsed JSON array of objects. -/
structure SBackend where
  desc : Option String
  ings : Option (List JObj)
  insts : Option (List JObj)

/-- Python truthiness of `.get(key)` for a string field (missing or '' falsy). -/
def truthyStr : Option String → Bool
  | Option.some s => !s.isEmpty
  | Option.none => false

/-- Python truthiness for a list field (missing or [] falsy). -/
def truthyList : Option (List Item) → Bool
  | Option.some l => !l.isEmpty
  | Option.none => false

/-- str.capitalize(): first character upper, the rest lowered. -/
def pyCapitalize (w : String) : String :=
  match w.data with
  | [] => ""
  | c :: cs => String.mk (c.toUpper :: cs.map Char.toLower)

/-- str.split() with no argument: split on whitespace, dropping empties. -/
def pySplit (s : String) : List String :=
  (s.split Char.isWhitespace).filter (fun w => !w.isEmpty)

/-- RecipeCleaningService.clean_title (recipe_cleaner.py lines 95-109):
    strip, conditionally drop each known suffix in order, then capitalize
    each whitespace-separated word. -/
def cleanTitle (title : String) : String :=
  let suffixes : List String :=
    [" - Recipe", " Recipe", " | Allrecipes", " - Allrecipes",
     " | Food Network", " - Food Network", " | Tasty", " - Tasty"]
  let ct := suffixes.foldl
    (fun acc suf => if acc.endsWith suf then (acc.dropRight suf.length).trim else acc)
    title.trim
  String.intercalate " " ((pySplit ct).map pyCapitalize)

/-- RecipeCleaningService.clean_description (lines 111-120): the trimmed
    response on success, the input unchanged when the call raises. -/
def cleanDescription (resp : Option String) (description : String) : String :=
  match resp with
  | Option.some r => r.trim
  | Option.none => description

/-- The except branch of clean_ingredients (lines 152-162): dict-shaped input
    is returned as is, a simple list is converted to dict format. -/
def ingFallback (ingredients : List Item) : List Item :=
  match ingredients.head? with
  | Option.some (Item.obj _) => ingredients
  | _ => ingredients.enum.map (fun p =>
      Item.obj [("quantity", JVal.s ""), ("name", JVal.s (pyStr p.2)),
                ("order", JVal.n (p.1 + 1))])

/-- RecipeCleaningService.clean_ingredients (lines 122-162): on a parsed
    response, number the entries and default `notes`/`quantity`; on backend
    or parse failure, the except branch. -/
def cleanIngredients (resp : Option (List JObj)) (ingredients : List Item) : List Item :=
  match resp with
  | Option.some arr =>
    arr.enum.map (fun p =>
      let o1 := setJ p.2 "order" (JVal.n (p.1 + 1))
      let o2 := if (getJ o1 "notes").isSome then o1 else setJ o1 "notes" (JVal.s "")
      let o3 := if (getJ o2 "quantity").isSome then o2 else setJ o2 "quantity" (JVal.s "")
      Item.obj o3)
  | Option.none => ingFallback ingredients

/-- The except branch of clean_instructions (lines 197-207). -/
def instFallback (instructions : List Item) : List Item :=
  match instructions.head? with
  | Option.some (Item.obj _) => instructions
  | _ => instructions.enum.map (fun p =>
      Item.obj [("description", JVal.s (pyStr p.2)), ("order", JVal.n (p.1 + 1)),
                ("timeframe", JVal.s "")])

/-- The reformatting loop of clean_instructions (lines 187-193): a missing
    'instruction' or 'step' key raises (KeyError), discarding the whole
    result and landing in the except branch. -/
def formatInsts : List JObj → Option (List JObj)
  | [] => Option.some []
  | inst :: rest =>
    match getJ inst "instruction", getJ inst "step" with
    | Option.some dsc, Option.some stp =>
      (formatInsts rest).map (fun r =>
        [("description", dsc), ("order", stp), ("timeframe", JVal.s "")] :: r)
    | _, _ => Option.none

/-- RecipeCleaningService.clean_instructions (lines 164-207). -/
def cleanInstructions (resp : Option (List JObj)) (instructions : List Item) : List Item :=
  match resp with
  | Option.some arr =>
    match formatInsts arr with
    | Option.some out => out.map Item.obj
    | Option.none => instFallback instructions
  | Option.none => instFallback instructions

/-- RecipeCleaningService.clean_recipe (recipe_cleaner.py lines 67-93):
    shallow-copy the mapping, then clean each truthy field; each helper
    catches its own backend/parse failures, so the outer except (which would
    return the input untouched) is unreachable for the modelled inputs, and
    the call never raises. -/
def service_clean_recipe (b : SBackend) (r : SRecipe) : SRecipe :=
  let c1 := if truthyStr r.description then
    { r with description := Option.some (cleanDescription b.desc (r.description.getD "")) }
    else r
  let c2 := if truthyList r.ingredients then
    { c1 with ingredients := Option.some (cleanIngredients b.ings (r.ingredients.getD [])) }
    else c1
  let c3 := if truthyList r.instructions then
    { c2 with instructions := Option.some (cleanInstructions b.insts (r.instructions.getD [])) }
    else c2
  if truthyStr r.title then
    { c3 with title := Option.some (cleanTitle (r.title.getD "")) }
  else c3

/-! Concrete fixtures used by witnesses and counterexamples. -/

/-- A general-category rule substituting EVOO. -/
def grule : CleaningRule :=
  { id := 1, pattern := "EVOO", replacement := "extra virgin olive oil",
    category := "general", example_before := "EVOO", example_after := "extra virgin olive oil",
    success_count := 0, failure_count := 0, is_active := true, created_from_feedback := false }

/-- The same substitution as an ingredient-category rule. -/
def ingRule : CleaningRule := { grule with id := 2, category := "ingredient" }

/-- An active general rule whose pattern fails to compile. -/
def badRule : CleaningRule := { grule with id := 7, pattern := "(" }

/-- A one-ingredient heap. -/
def cexStore : Store :=
  { ings := [{ name := Option.some "EVOO", quantity := Option.none }], instrs := [] }

/-- A recipe mapping whose description and sole ingredient mention EVOO. -/
def cexDict : RecipeDict :=
  { description := Option.some "EVOO soup", ingredients := Option.some [0],
    instructions := Option.none }

/-- An engine with no loaded rules. -/
def emptyRules : Rules := load_rules []

/-- A base cleaner that records the prompt it was invoked with. -/
def demoClean : String → RecipeVal → RecipeVal :=
  fun p v => { v with description := Option.some p }

/-- A trivial JSON rendering for the few-shot examples. -/
def demoShow : RecipeVal → String := fun _ => ""

/-- A needs_improvement feedback entry correcting EVOO positionally. -/
def fbe : Feedback :=
  { feedback_type := "needs_improvement",
    original_data := { emptyRecipeVal with
      ingredients := Option.some [{ name := Option.some "EVOO", quantity := Option.none }] },
    cleaned_data := emptyRecipeVal,
    user_corrections := Option.some { emptyRecipeVal with
      ingredients := Option.some
        [{ name := Option.some "extra virgin olive oil", quantity := Option.none }] } }

/-- A recipe whose ingredients are a simple list of strings. -/
def strIngRecipe : SRecipe :=
  { title := Option.none, description := Option.none,
    ingredients := Option.some [Item.str "EVOO"], instructions := Option.none }

/-- A recipe whose lists are dict-shaped. -/
def objRecipe : SRecipe :=
  { title := Option.some "pasta Recipe", description := Option.some "tasty",
    ingredients := Option.some [Item.obj [("name", JVal.s "EVOO")]],
    instructions := Option.some [Item.obj [("description", JVal.s "stir")]] }

/-- A backend on which every call fails (raise or unparseable response). -/
def failB : SBackend :=
  { desc := Option.none, ings := Option.none, insts := Option.none }

/-- A concrete engine on which every pattern compiles but every substitution
    raises at sub time (as Python's Pattern.sub does for an invalid group
    reference in the replacement). -/
def raisingSubCompile (_pat : String) : Option Compiled :=
  Option.some (fun _ _ => Option.none)

/-- The raise condition of _apply_rule_to_data's try block, over the
    embedding: the pattern fails to compile, or the substitution performed by
    the branch selected for this rule and mapping raises. -/
def ruleApplicationRaises (compile : String → Option Compiled) (st : Store)
    (d : RecipeDict) (r : CleaningRule) : Bool :=
  match compile r.pattern with
  | Option.none => true
  | Option.some c =>
    if r.category = "ingredient" ∧ d.ingredients.isSome then
      !(applyIngList (c r.replacement) (d.ingredients.getD []) st.ings).2
    else if r.category = "instruction" ∧ d.instructions.isSome then
      !(applyInstrList (c r.replacement) (d.instructions.getD []) st.instrs).2
    else if r.category = "description" ∧ d.description.isSome then
      (c r.replacement (d.description.getD "")).isNone
    else false

/-- The rule table after attempting a list of rules that touch no fields:
    one counter bump per rule, success when its pattern compiles. -/
def dbAfterGeneral (compile : String → Option Compiled) (rs : List CleaningRule)
    (db : List CleaningRule) : List CleaningRule :=
  rs.foldl (fun acc r =>
    match compile r.pattern with
    | Option.some _ => incSuccess acc r.id
    | Option.none => incFailure acc r.id) db

/-- Invariant tying the incrementally built correction map to the multiset of
    scanned correction keys: keys are unique and each entry's value is the
    key's total occurrence count. -/
def cmapInv (l : List (String × String)) (m : List ((String × String) × Nat)) : Prop :=
  (m.map Prod.fst).Nodup ∧ ∀ k n, ((k, n) ∈ m ↔ (l.count k = n ∧ 1 ≤ n))

/-! Helper lemmas. -/

theorem genNoopAux (compile : String → Option Compiled) (st : Store)
    (db : List CleaningRule) (d : RecipeDict) (r : CleaningRule)
    (h : r.category = "general") :
    applyRuleToData compile st db d r =
      (st, (match compile r.pattern with
            | Option.some _ => incSuccess db r.id
            | Option.none => incFailure db r.id), d) := by
  unfold applyRuleToData
  cases hc : compile r.pattern with
  | none => rfl
  | some c =>
    have h1 : ¬ (r.category = "ingredient" ∧ d.ingredients.isSome) := by
      rintro ⟨h1, -⟩; rw [h] at h1; exact absurd h1 (by decide)
    have h2 : ¬ (r.category = "instruction" ∧ d.instructions.isSome) := by
      rintro ⟨h2, -⟩; rw [h] at h2; exact absurd h2 (by decide)
    have h3 : ¬ (r.category = "description" ∧ d.description.isSome) := by
      rintro ⟨h3, -⟩; rw [h] at h3; exact absurd h3 (by decide)
    simp only [if_neg h1, if_neg h2, if_neg h3]

theorem generalFoldNoop (compile : String → Option Compiled) (rs : List CleaningRule)
    (st : Store) (db : List CleaningRule) (d : RecipeDict)
    (h : ∀ r ∈ rs, r.category = "general") :
    rs.foldl (ruleStep compile) (st, db, d) = (st, dbAfterGeneral compile rs db, d) := by
  induction rs generalizing db with
  | nil => rfl
  | cons r rs ih =>
    have hr : r.category = "general" := h r (List.mem_cons_self r rs)
    simp only [List.foldl_cons, dbAfterGeneral, ruleStep]
    rw [genNoopAux compile st db d r hr]
    exact ih _ (fun x hx => h x (List.mem_cons_of_mem r hx))

theorem applyRulesNoneEq (compile : String → Option Compiled) (st : Store)
    (db : List CleaningRule) (rules : Rules) (d : RecipeDict)
    (h : ∀ r ∈ rules.general, r.category = "general") :
    apply_rules compile st db rules d Option.none =
      (st, dbAfterGeneral compile rules.general db, d) := by
  unfold apply_rules
  simp only
  exact generalFoldNoop compile rules.general st db d h

/-- C3 counterexample: an active general rule whose pattern matches the sole
    ingredient's name and the top-level description changes neither (only its
    success counter moves), although the substitution it carries would have
    rewritten EVOO — refuting that a general rule behaves as the union of the
    ingredient, instruction and description handling. -/
theorem general_rule_no_substitution_cex :
    applyRuleToData simpleCompile cexStore [grule] cexDict grule =
      (cexStore, [{ grule with success_count := 1 }], cexDict)
    ∧ replaceCI grule.pattern grule.replacement "EVOO" = "extra virgin olive oil"
    ∧ ("EVOO" : String) ≠ "extra virgin olive oil" := by
  refine ⟨by decide, by decide, by decide⟩

/-- C3 (amended): a rule of category 'general' matches no branch of
    _apply_rule_to_data, so it performs no substitution at all: the heap and
    the recipe mapping are returned unchanged and the only effect is one
    counter increment (success when the pattern compiles, failure otherwise). -/
theorem general_rule_field_noop (compile : String → Option Compiled) (st : Store)
    (db : List CleaningRule) (d : RecipeDict) (r : CleaningRule)
    (h : r.category = "general") :
    applyRuleToData compile st db d r =
      (st, (match compile r.pattern with
            | Option.some _ => incSuccess db r.id
            | Option.none => incFailure db r.id), d) :=
  genNoopAux compile st db d r h

/-- Witness for general_rule_field_noop at the concrete EVOO rule. -/
theorem general_rule_field_noop_witness :
    grule.category = "general" ∧
    applyRuleToData simpleCompile cexStore [grule] cexDict grule =
      (cexStore, (match simpleCompile grule.pattern with
            | Option.some _ => incSuccess [grule] grule.id
            | Option.none => incFailure [grule] grule.id), cexDict) :=
  ⟨rfl, general_rule_field_noop simpleCompile cexStore [grule] cexDict grule rfl⟩

/-- C4 counterexample: with a single active ingredient rule loaded,
    apply_rules with no category filter changes nothing — neither the
    ingredient name in the heap nor the rule's counters — although the same
    call with the 'ingredient' filter does rewrite the data, refuting that
    the unfiltered call applies the rules of all categories. -/
theorem apply_rules_unfiltered_skips_categories_cex :
    apply_rules simpleCompile cexStore [ingRule] (load_rules [ingRule]) cexDict Option.none =
      (cexStore, [ingRule], cexDict)
    ∧ (load_rules [ingRule]).ingredient = [ingRule]
    ∧ apply_rules simpleCompile cexStore [ingRule] (load_rules [ingRule]) cexDict
        (Option.some "ingredient") ≠ (cexStore, [ingRule], cexDict) := by
  refine ⟨by decide, by decide, by decide⟩

/-- C4 (amended): the adaptive pre-pass invokes apply_rules with no category
    filter, and such a call applies only the general rules; since those touch
    no fields, the heap and mapping are returned unchanged and only general
    rules' counters move — category-specific rules are not applied. -/
theorem apply_rules_unfiltered_general_only (compile : String → Option Compiled)
    (st : Store) (db : List CleaningRule) (rules : Rules) (d : RecipeDict)
    (h : ∀ r ∈ rules.general, r.category = "general") :
    apply_rules compile st db rules d Option.none =
      (st, dbAfterGeneral compile rules.general db, d) :=
  applyRulesNoneEq compile st db rules d h

/-- Witness for apply_rules_unfiltered_general_only on a one-rule table. -/
theorem apply_rules_unfiltered_general_only_witness :
    (∀ r ∈ (load_rules [ingRule]).general, r.category = "general") ∧
    apply_rules simpleCompile cexStore [ingRule] (load_rules [ingRule]) cexDict Option.none =
      (cexStore, dbAfterGeneral simpleCompile (load_rules [ingRule]).general [ingRule], cexDict) :=
  ⟨by decide, apply_rules_unfiltered_general_only simpleCompile cexStore [ingRule]
    (load_rules [ingRule]) cexDict (by decide)⟩

/-- C9 counterexample: a single post-processing pass over one active general
    rule with a non-compiling pattern attempts it five times (its failure
    counter reaches 5, not 1) and leaves it active — refuting that a failing
    rule is deactivated from further use in that pass; likewise a rule whose
    substitution raises at sub time only gains a failure count and stays
    active. -/
theorem failing_rule_not_deactivated_cex :
    (post_process simpleCompile cexStore [badRule] cexDict).2.1 =
      [{ badRule with failure_count := 5 }]
    ∧ badRule.is_active = true
    ∧ (post_process simpleCompile cexStore [badRule] cexDict).2.1.map
        (fun r => r.is_active) = [true]
    ∧ (applyRuleToData raisingSubCompile cexStore [ingRule] cexDict ingRule).2.1 =
        [{ ingRule with failure_count := 1 }]
    ∧ (applyRuleToData raisingSubCompile cexStore [ingRule] cexDict ingRule).2.1.map
        (fun r => r.is_active) = [true] := by
  refine ⟨by decide, by decide, by decide, by decide, by decide⟩

/-- C9 (amended): whenever applying a rule raises — its pattern fails to
    compile, or the substitution of the selected branch raises — the error is
    caught locally: _apply_rule_to_data returns normally with the recipe
    mapping unchanged, so the batch continues with the next rule; the rule's
    failure_count is incremented; and the rule is neither deleted nor
    deactivated: the table keeps the same length and every row keeps its id,
    pattern, replacement, category and is_active flag. -/
theorem rule_failure_counted_not_deactivated (compile : String → Option Compiled)
    (st : Store) (db : List CleaningRule) (d : RecipeDict) (r : CleaningRule)
    (h : ruleApplicationRaises compile st d r = true) :
    (applyRuleToData compile st db d r).2.1 = incFailure db r.id
    ∧ (applyRuleToData compile st db d r).2.2 = d
    ∧ (incFailure db r.id).length = db.length
    ∧ (incFailure db r.id).map (fun x => (x.id, x.pattern, x.replacement, x.category, x.is_active)) =
        db.map (fun x => (x.id, x.pattern, x.replacement, x.category, x.is_active)) := by
  have hlen : (incFailure db r.id).length = db.length := by simp [incFailure]
  have hmap : (incFailure db r.id).map
        (fun x => (x.id, x.pattern, x.replacement, x.category, x.is_active)) =
      db.map (fun x => (x.id, x.pattern, x.replacement, x.category, x.is_active)) := by
    unfold incFailure
    rw [List.map_map]
    apply List.map_congr_left
    intro x _
    by_cases hx : x.id = r.id <;> simp [hx]
  unfold ruleApplicationRaises at h
  unfold applyRuleToData
  cases hc : compile r.pattern with
  | none => exact ⟨rfl, rfl, hlen, hmap⟩
  | some c =>
    rw [hc] at h
    simp only at h ⊢
    split_ifs at h ⊢
    all_goals
      first
        | exact ⟨rfl, rfl, hlen, hmap⟩
        | (simp_all; done)

/-- Witness for rule_failure_counted_not_deactivated at an application that
    raises during substitution (the pattern itself compiles). -/
theorem rule_failure_counted_not_deactivated_witness :
    ruleApplicationRaises raisingSubCompile cexStore cexDict ingRule = true
    ∧ (applyRuleToData raisingSubCompile cexStore [ingRule] cexDict ingRule).2.1 =
        incFailure [ingRule] ingRule.id :=
  ⟨by decide, (rule_failure_counted_not_deactivated raisingSubCompile cexStore [ingRule]
    cexDict ingRule (by decide)).1⟩

theorem applyRule_preserves_refs (compile : String → Option Compiled) (st : Store)
    (db : List CleaningRule) (d : RecipeDict) (r : CleaningRule) :
    (applyRuleToData compile st db d r).2.2.ingredients = d.ingredients ∧
    (applyRuleToData compile st db d r).2.2.instructions = d.instructions := by
  unfold applyRuleToData
  cases compile r.pattern with
  | none => exact ⟨rfl, rfl⟩
  | some c =>
    simp only
    split_ifs <;>
      first
        | exact ⟨rfl, rfl⟩
        | (cases c r.replacement (d.description.getD "") <;> exact ⟨rfl, rfl⟩)

theorem foldRules_preserves_refs (compile : String → Option Compiled)
    (rs : List CleaningRule) :
    ∀ acc : Store × List CleaningRule × RecipeDict,
      (rs.foldl (ruleStep compile) acc).2.2.ingredients = acc.2.2.ingredients ∧
      (rs.foldl (ruleStep compile) acc).2.2.instructions = acc.2.2.instructions := by
  induction rs with
  | nil => intro acc; exact ⟨rfl, rfl⟩
  | cons r rs ih =>
    intro acc
    simp only [List.foldl_cons]
    have h1 := applyRule_preserves_refs compile acc.1 acc.2.1 acc.2.2 r
    have h2 := ih (ruleStep compile acc r)
    exact ⟨h2.1.trans h1.1, h2.2.trans h1.2⟩

theorem apply_rules_preserves_refs (compile : String → Option Compiled) (st : Store)
    (db : List CleaningRule) (rules : Rules) (d : RecipeDict) (cat : Option String) :
    (apply_rules compile st db rules d cat).2.2.ingredients = d.ingredients ∧
    (apply_rules compile st db rules d cat).2.2.instructions = d.instructions := by
  unfold apply_rules
  cases cat with
  | none => exact foldRules_preserves_refs compile rules.general (st, db, d)
  | some c =>
    have h1 := foldRules_preserves_refs compile rules.general (st, db, d)
    have h2 := foldRules_preserves_refs compile (rulesGet rules c)
      (rules.general.foldl (ruleStep compile) (st, db, d))
    exact ⟨h2.1.trans h1.1, h2.2.trans h1.2⟩

/-- C10: apply_rules copies only the top-level mapping — the returned mapping
    holds the very same references to the nested ingredient and instruction
    records as the caller's input, so after the call the caller's mapping and
    the returned one read back identical nested values from the mutated heap;
    concretely, applying an ingredient rule makes the caller's own mapping
    read back the substituted name, no longer its pre-call value. -/
theorem apply_rules_shallow_copy_aliasing :
    (∀ (compile : String → Option Compiled) (st : Store) (db : List CleaningRule)
       (rules : Rules) (d : RecipeDict) (cat : Option String),
      (apply_rules compile st db rules d cat).2.2.ingredients = d.ingredients
      ∧ (apply_rules compile st db rules d cat).2.2.instructions = d.instructions
      ∧ (materialize (apply_rules compile st db rules d cat).1 d).ingredients =
          (materialize (apply_rules compile st db rules d cat).1
            (apply_rules compile st db rules d cat).2.2).ingredients
      ∧ (materialize (apply_rules compile st db rules d cat).1 d).instructions =
          (materialize (apply_rules compile st db rules d cat).1
            (apply_rules compile st db rules d cat).2.2).instructions)
    ∧ (materialize (apply_rules simpleCompile cexStore [ingRule] (load_rules [ingRule])
          cexDict (Option.some "ingredient")).1 cexDict).ingredients ≠
        (materialize cexStore cexDict).ingredients := by
  constructor
  · intro compile st db rules d cat
    have h := apply_rules_preserves_refs compile st db rules d cat
    refine ⟨h.1, h.2, ?_, ?_⟩
    · simp only [materialize, h.1]
    · simp only [materialize, h.2]
  · decide

set_option maxRecDepth 8000 in
/-- C1: evaluating clean_recipe at a run whose semantic-cleaner call raises
    (ExcPoint.atAI): the fallback does run the base cleaner on data equal to
    the original snapshot and returns it paired with that snapshot, but it
    invokes the cleaner with the still-installed enriched prompt, not the
    default one — the prompt restore on line 206 is skipped when line 205
    raises, contradicting both the spec and the code's own
    "Fallback to basic cleaning" comment. -/
theorem fallback_runs_with_unrestored_prompt :
    (adaptiveCleanRecipe simpleCompile demoClean demoShow [] ExcPoint.atAI cexStore []
        emptyRules "DEFAULT" cexDict true).cleaned =
      demoClean basePromptText (materialize cexStore cexDict)
    ∧ (adaptiveCleanRecipe simpleCompile demoClean demoShow [] ExcPoint.atAI cexStore []
        emptyRules "DEFAULT" cexDict true).original = materialize cexStore cexDict
    ∧ (adaptiveCleanRecipe simpleCompile demoClean demoShow [] ExcPoint.atAI cexStore []
        emptyRules "DEFAULT" cexDict true).cleaned ≠
        demoClean "DEFAULT" (materialize cexStore cexDict)
    ∧ basePromptText ≠ "DEFAULT" := by
  refine ⟨by decide, by decide, by decide, by decide⟩

set_option maxRecDepth 8000 in
/-- C5: after a clean_recipe invocation in which the semantic-cleaner call
    raises, the cleaner instance's system_prompt still holds the enriched
    prompt (it is restored only on the non-raising path, and also after an
    exception later in post-processing), so the override leaks into
    subsequent invocations sharing the cleaner instance. -/
theorem prompt_not_restored_on_exception :
    (adaptiveCleanRecipe simpleCompile demoClean demoShow [] ExcPoint.atAI cexStore []
        emptyRules "DEFAULT" cexDict true).systemPrompt = basePromptText
    ∧ (adaptiveCleanRecipe simpleCompile demoClean demoShow [] ExcPoint.atPost cexStore []
        emptyRules "DEFAULT" cexDict true).systemPrompt = "DEFAULT"
    ∧ basePromptText ≠ "DEFAULT" := by
  refine ⟨by decide, by decide, by decide⟩

theorem scr_description (b : SBackend) (r : SRecipe) :
    (service_clean_recipe b r).description =
      (if truthyStr r.description then
        Option.some (cleanDescription b.desc (r.description.getD "")) else r.description) := by
  unfold service_clean_recipe
  split_ifs <;> rfl

theorem scr_ingredients (b : SBackend) (r : SRecipe) :
    (service_clean_recipe b r).ingredients =
      (if truthyList r.ingredients then
        Option.some (cleanIngredients b.ings (r.ingredients.getD [])) else r.ingredients) := by
  unfold service_clean_recipe
  split_ifs <;> rfl

theorem scr_instructions (b : SBackend) (r : SRecipe) :
    (service_clean_recipe b r).instructions =
      (if truthyList r.instructions then
        Option.some (cleanInstructions b.insts (r.instructions.getD [])) else r.instructions) := by
  unfold service_clean_recipe
  split_ifs <;> rfl

theorem scr_title (b : SBackend) (r : SRecipe) :
    (service_clean_recipe b r).title =
      (if truthyStr r.title then Option.some (cleanTitle (r.title.getD "")) else r.title) := by
  unfold service_clean_recipe
  split_ifs <;> rfl

/-- C2 counterexample: on a recipe whose ingredients are a simple list of
    strings, a backend failure makes clean_recipe return the ingredients
    converted to dict format, not equal to the pre-call input — refuting that
    the result equals the pre-call input for every field the cleaner was
    responsible for. -/
theorem service_reshapes_string_list_cex :
    (service_clean_recipe failB strIngRecipe).ingredients =
      Option.some [Item.obj [("quantity", JVal.s ""), ("name", JVal.s "EVOO"),
        ("order", JVal.n 1)]]
    ∧ (service_clean_recipe failB strIngRecipe).ingredients ≠ strIngRecipe.ingredients := by
  refine ⟨by decide, by decide⟩

/-- C2 (amended): when every backend call fails (raise or unparseable
    response), clean_recipe never raises — it returns a defined result in
    which the description is unchanged and dict-shaped ingredient and
    instruction lists are returned unchanged; however, string-shaped lists
    are converted to dict records, and the title is still cleaned by the
    non-LLM title cleaner. -/
theorem service_fail_open_fields (b : SBackend) (r : SRecipe)
    (hd : b.desc = Option.none) (hi : b.ings = Option.none) (hj : b.insts = Option.none) :
    (service_clean_recipe b r).description = r.description
    ∧ (service_clean_recipe b r).ingredients =
        (if truthyList r.ingredients then Option.some (ingFallback (r.ingredients.getD []))
         else r.ingredients)
    ∧ (service_clean_recipe b r).instructions =
        (if truthyList r.instructions then Option.some (instFallback (r.instructions.getD []))
         else r.instructions)
    ∧ (service_clean_recipe b r).title =
        (if truthyStr r.title then Option.some (cleanTitle (r.title.getD "")) else r.title)
    ∧ (∀ o rest, r.ingredients = Option.some (Item.obj o :: rest) →
        (service_clean_recipe b r).ingredients = r.ingredients)
    ∧ (∀ o rest, r.instructions = Option.some (Item.obj o :: rest) →
        (service_clean_recipe b r).instructions = r.instructions) := by
  refine ⟨?_, ?_, ?_, ?_, ?_, ?_⟩
  · rw [scr_description, hd]
    split_ifs with h
    · cases hv : r.description with
      | none => rw [hv] at h; simp [truthyStr] at h
      | some s => rfl
    · rfl
  · rw [scr_ingredients, hi]; rfl
  · rw [scr_instructions, hj]; rfl
  · rw [scr_title]
  · intro o rest h
    rw [scr_ingredients, hi, h]
    rfl
  · intro o rest h
    rw [scr_instructions, hj, h]
    rfl

/-- Witness for service_fail_open_fields: a failing backend on a dict-shaped
    recipe leaves the ingredient list untouched. -/
theorem service_fail_open_fields_witness :
    failB.desc = Option.none ∧
    (service_clean_recipe failB objRecipe).ingredients = objRecipe.ingredients :=
  ⟨rfl, (service_fail_open_fields failB objRecipe rfl rfl rfl).2.2.2.2.1
    [("name", JVal.s "EVOO")] [] rfl⟩

theorem ruleExists_append (db : List CleaningRule) (r : CleaningRule)
    (p : String × String × String) (h : ruleExists db p = true) :
    ruleExists (db ++ [r]) p = true := by
  unfold ruleExists at *
  rw [List.any_append]
  simp [h]

theorem ruleExists_mkLearnedRule (db : List CleaningRule) (p : String × String × String)
    (nid : Nat) : ruleExists (db ++ [mkLearnedRule p nid]) p = true := by
  unfold ruleExists mkLearnedRule
  rw [List.any_append]
  simp

theorem learnGo_exists (ps : List (String × String × String)) :
    ∀ (db : List CleaningRule) (nid : Nat) (acc : List CleaningRule),
      (∀ q, ruleExists db q = true →
        ruleExists (learnGo ps db nid acc Option.none).2.1 q = true)
      ∧ (∀ p ∈ ps, ruleExists (learnGo ps db nid acc Option.none).2.1 p = true) := by
  induction ps with
  | nil =>
    intro db nid acc
    exact ⟨fun q hq => hq, fun p hp => absurd hp (List.not_mem_nil p)⟩
  | cons p ps ih =>
    intro db nid acc
    unfold learnGo
    by_cases hex : ruleExists db p
    · simp only [hex, if_true]
      refine ⟨fun q hq => (ih db nid acc).1 q hq, ?_⟩
      intro x hx
      rcases List.mem_cons.1 hx with hx | hx
      · subst hx; exact (ih db nid acc).1 x hex
      · exact (ih db nid acc).2 x hx
    · simp only [hex, if_false]
      refine ⟨?_, ?_⟩
      · intro q hq
        exact (ih _ _ _).1 q (ruleExists_append db (mkLearnedRule p nid) q hq)
      · intro x hx
        rcases List.mem_cons.1 hx with hx | hx
        · subst hx
          exact (ih _ _ _).1 x (ruleExists_mkLearnedRule db x nid)
        · exact (ih _ _ _).2 x hx

theorem learnGo_all_exist (ps : List (String × String × String)) :
    ∀ (db : List CleaningRule) (nid : Nat) (acc : List CleaningRule),
      (∀ p ∈ ps, ruleExists db p = true) →
      learnGo ps db nid acc Option.none = (acc.reverse, db, nid) := by
  induction ps with
  | nil => intro db nid acc _; rfl
  | cons p ps ih =>
    intro db nid acc h
    unfold learnGo
    simp only [h p (List.mem_cons_self p ps), if_true]
    exact ih db nid acc (fun x hx => h x (List.mem_cons_of_mem p hx))

theorem learnGo_fuel_empty (ps : List (String × String × String)) :
    ∀ (db : List CleaningRule) (nid : Nat) (acc : List CleaningRule) (k : Nat),
      k ≤ ps.length → (learnGo ps db nid acc (Option.some k)).1 = [] := by
  induction ps with
  | nil =>
    intro db nid acc k hk
    have : k = 0 := Nat.le_zero.1 hk
    subst this
    rfl
  | cons p ps ih =>
    intro db nid acc k hk
    cases k with
    | zero => rfl
    | succ k =>
      unfold learnGo
      simp only [Option.map_some]
      by_cases hex : ruleExists db p
      · simp only [hex, if_true]
        exact ih _ _ _ k (by simpa using Nat.succ_le_succ_iff.1 hk)
      · simp only [hex, if_false]
        exact ih _ _ _ k (by simpa using Nat.succ_le_succ_iff.1 hk)

/-- C8: running learn_from_feedback a second time over the same feedback data
    creates no rule at all — every triple discovered in the first call now
    exists in the table, so the second call returns [] and leaves the table
    unchanged — and an internal failure at any point of the creation loop
    (or after it) makes the call return the empty list rather than raise. -/
theorem learn_from_feedback_dedup (fbs : List Feedback) (db : List CleaningRule) (nid : Nat) :
    ((learn_from_feedback fbs (learn_from_feedback fbs db nid Option.none).2.1
        (learn_from_feedback fbs db nid Option.none).2.2 Option.none).1 = []
      ∧ (learn_from_feedback fbs (learn_from_feedback fbs db nid Option.none).2.1
          (learn_from_feedback fbs db nid Option.none).2.2 Option.none).2.1 =
            (learn_from_feedback fbs db nid Option.none).2.1)
    ∧ (∀ k : Nat, k ≤ (discover_patterns fbs 3).length →
        (learn_from_feedback fbs db nid (Option.some k)).1 = []) := by
  constructor
  · have hall := (learnGo_exists (discover_patterns fbs 3) db nid []).2
    unfold learn_from_feedback
    rw [learnGo_all_exist (discover_patterns fbs 3) _ _ [] hall]
    exact ⟨rfl, rfl⟩
  · intro k hk
    unfold learn_from_feedback
    exact learnGo_fuel_empty (discover_patterns fbs 3) db nid [] k hk

/-- Witness for learn_from_feedback_dedup: a failure during discovery on
    three concrete feedback entries yields the empty list. -/
theorem learn_from_feedback_dedup_witness :
    (0 ≤ (discover_patterns [fbe, fbe, fbe] 3).length) ∧
    (learn_from_feedback [fbe, fbe, fbe] [] 0 (Option.some 0)).1 = [] :=
  ⟨Nat.zero_le _, (learn_from_feedback_dedup [fbe, fbe, fbe] [] 0).2 0 (Nat.zero_le _)⟩

theorem cmapInv_nil : cmapInv [] [] := by
  constructor
  · simp
  · intro k n
    simp
    omega

theorem cmapInv_bump (l : List (String × String)) (k0 : String × String)
    (m : List ((String × String) × Nat)) (h : cmapInv l m) :
    cmapInv (l ++ [k0]) (bump m k0) := by
  obtain ⟨hnd, hmem⟩ := h
  unfold bump
  by_cases hex : m.any (fun e => e.1 = k0)
  · rw [if_pos hex]
    constructor
    · have hfst : (m.map (fun e => if e.1 = k0 then (e.1, e.2 + 1) else e)).map Prod.fst =
          m.map Prod.fst := by
        rw [List.map_map]
        apply List.map_congr_left
        intro e _
        by_cases he : e.1 = k0 <;> simp [he]
      rw [hfst]
      exact hnd
    · intro k n
      rw [List.mem_map]
      constructor
      · rintro ⟨⟨e1, e2⟩, hem, hfe⟩
        have hc := (hmem e1 e2).1 hem
        by_cases he1 : e1 = k0
        · rw [if_pos (by simpa using he1)] at hfe
          injection hfe with h1 h2
          subst h1
          subst he1
          constructor
          · simp [List.count_append, hc.1]
            omega
          · omega
        · rw [if_neg (by simpa using he1)] at hfe
          injection hfe with h1 h2
          subst h1
          subst h2
          constructor
          · simp [List.count_append, he1, hc.1]
          · exact hc.2
      · rintro ⟨hcnt, hn⟩
        by_cases hk : k = k0
        · subst hk
          obtain ⟨⟨e1, e2⟩, hem, he1⟩ := List.any_eq_true.1 hex
          simp only [decide_eq_true_eq] at he1
          subst he1
          have hc := (hmem _ _).1 hem
          have hn2 : e2 + 1 = n := by
            simp [List.count_append, hc.1] at hcnt
            omega
          refine ⟨(e1, e2), hem, ?_⟩
          dsimp only
          rw [if_pos rfl, hn2]
        · refine ⟨(k, n), ?_, ?_⟩
          · apply (hmem k n).2
            refine ⟨?_, hn⟩
            simpa [List.count_append, hk] using hcnt
          · dsimp only
            rw [if_neg hk]
  · rw [if_neg hex]
    have hnotin : ∀ e ∈ m, e.1 ≠ k0 := by
      intro e hem heq
      exact hex (List.any_eq_true.2 ⟨e, hem, by simpa using heq⟩)
    constructor
    · rw [List.map_append]
      simp only [List.map_cons, List.map_nil]
      rw [List.nodup_append]
      refine ⟨hnd, List.nodup_singleton k0, ?_⟩
      intro x hx
      simp only [List.mem_singleton]
      intro hx0
      subst hx0
      obtain ⟨e, hem, hfe⟩ := List.mem_map.1 hx
      exact hnotin e hem hfe
    · intro k n
      rw [List.mem_append, List.mem_singleton]
      by_cases hk : k = k0
      · subst hk
        have hc0 : List.count k l = 0 := by
          by_contra hpos
          have h1 : 1 ≤ List.count k l := Nat.pos_of_ne_zero hpos
          have := (hmem k (List.count k l)).2 ⟨rfl, h1⟩
          exact hnotin _ this rfl
        constructor
        · rintro (hin | heq)
          · have hc := (hmem k n).1 hin
            have h0 := hc.1
            rw [hc0] at h0
            exact absurd hc.2 (by omega)
          · injection heq with h1 h2
            subst h2
            constructor
            · simp [List.count_append, hc0]
            · exact le_refl 1
        · rintro ⟨hcnt, hn⟩
          right
          simp [List.count_append, hc0] at hcnt
          rw [Prod.mk.injEq]
          exact ⟨rfl, by omega⟩
      · constructor
        · rintro (hin | heq)
          · have hc := (hmem k n).1 hin
            refine ⟨?_, hc.2⟩
            simp [List.count_append, hk, hc.1]
          · injection heq with h1 h2
            exact absurd h1 hk
        · rintro ⟨hcnt, hn⟩
          left
          apply (hmem k n).2
          refine ⟨?_, hn⟩
          simpa [List.count_append, hk] using hcnt

theorem cmap_spec (l : List (String × String)) : cmapInv l (l.foldl bump []) := by
  induction l using List.reverseRecOn with
  | nil => exact cmapInv_nil
  | append_singleton l k0 ih =>
    rw [List.foldl_append]
    exact cmapInv_bump l k0 (l.foldl bump []) ih

theorem correctionMap_spec (fbs : List Feedback) :
    cmapInv (occList fbs) (correctionMap fbs) := cmap_spec (occList fbs)

set_option maxRecDepth 4000 in
/-- C7: discover_patterns returns a candidate (regex-escaped original name,
    corrected name, 'ingredient') exactly for the positionally-differing
    ingredient-name pairs of the scanned needs_improvement feedback whose
    occurrence count reaches min_occurrences; in particular, with
    min_occurrences = 3, a pair occurring in exactly 2 entries yields no rule
    and one occurring in 3 entries yields exactly one candidate rule. -/
theorem discover_patterns_threshold :
    (∀ (fbs : List Feedback) (minOcc : Nat) (p : String × String × String),
      p ∈ discover_patterns fbs minOcc ↔
        ∃ o c, p = (reEscape o, c, "ingredient")
          ∧ minOcc ≤ occCount fbs o c ∧ 1 ≤ occCount fbs o c)
    ∧ discover_patterns [fbe, fbe] 3 = []
    ∧ discover_patterns [fbe, fbe, fbe] 3 =
        [("EVOO", "extra virgin olive oil", "ingredient")] := by
  refine ⟨?_, by decide, by decide⟩
  intro fbs minOcc p
  have hinv := correctionMap_spec fbs
  unfold discover_patterns
  rw [List.mem_map]
  constructor
  · rintro ⟨e, he, rfl⟩
    rw [List.mem_filter] at he
    obtain ⟨hem, hcnt⟩ := he
    have hco := (hinv.2 e.1 e.2).1 hem
    refine ⟨e.1.1, e.1.2, rfl, ?_, ?_⟩
    · unfold occCount
      rw [hco.1]
      exact Nat.le_of_ble_eq_true (by simpa using hcnt)
    · unfold occCount
      rw [hco.1]
      exact hco.2
  · rintro ⟨o, c, rfl, hmin, hone⟩
    refine ⟨((o, c), occCount fbs o c), ?_, rfl⟩
    rw [List.mem_filter]
    constructor
    · exact (hinv.2 (o, c) (occCount fbs o c)).2 ⟨rfl, hone⟩
    · simpa using hmin

theorem succCount_cons (x : CleaningRule) (db : List CleaningRule) (j : Nat) :
    succCount (x :: db) j = (if x.id = j then x.success_count else 0) + succCount db j := by
  by_cases h : x.id = j <;> simp [succCount, List.filter_cons, h]

theorem failCount_cons (x : CleaningRule) (db : List CleaningRule) (j : Nat) :
    failCount (x :: db) j = (if x.id = j then x.failure_count else 0) + failCount db j := by
  by_cases h : x.id = j <;> simp [failCount, List.filter_cons, h]

theorem incSuccess_cons (x : CleaningRule) (db : List CleaningRule) (id : Nat) :
    incSuccess (x :: db) id =
      (if x.id = id then { x with success_count := x.success_count + 1 } else x) ::
        incSuccess db id := rfl

theorem incFailure_cons (x : CleaningRule) (db : List CleaningRule) (id : Nat) :
    incFailure (x :: db) id =
      (if x.id = id then { x with failure_count := x.failure_count + 1 } else x) ::
        incFailure db id := rfl

theorem succCount_incSuccess (db : List CleaningRule) (id j : Nat) :
    succCount (incSuccess db id) j =
      succCount db j +
        (if j = id then ((db.filter (fun x => x.id == j)).length : Int) else 0) := by
  induction db with
  | nil => simp [succCount, incSuccess]
  | cons x db ih =>
    rw [incSuccess_cons, succCount_cons, succCount_cons, ih, List.filter_cons]
    have hid : (if x.id = id then { x with success_count := x.success_count + 1 } else x).id
        = x.id := by split_ifs <;> rfl
    have hsc : (if x.id = id then { x with success_count := x.success_count + 1 } else x).success_count
        = x.success_count + (if x.id = id then 1 else 0) := by split_ifs <;> simp
    rw [hid, hsc]
    split_ifs <;> simp_all [List.length_cons] <;> push_cast <;> omega

theorem failCount_incSuccess (db : List CleaningRule) (id j : Nat) :
    failCount (incSuccess db id) j = failCount db j := by
  induction db with
  | nil => simp [failCount, incSuccess]
  | cons x db ih =>
    rw [incSuccess_cons, failCount_cons, failCount_cons, ih]
    have hid : (if x.id = id then { x with success_count := x.success_count + 1 } else x).id
        = x.id := by split_ifs <;> rfl
    have hfc : (if x.id = id then { x with success_count := x.success_count + 1 } else x).failure_count
        = x.failure_count := by split_ifs <;> rfl
    rw [hid, hfc]

theorem succCount_incFailure (db : List CleaningRule) (id j : Nat) :
    succCount (incFailure db id) j = succCount db j := by
  induction db with
  | nil => simp [succCount, incFailure]
  | cons x db ih =>
    rw [incFailure_cons, succCount_cons, succCount_cons, ih]
    have hid : (if x.id = id then { x with failure_count := x.failure_count + 1 } else x).id
        = x.id := by split_ifs <;> rfl
    have hsc : (if x.id = id then { x with failure_count := x.failure_count + 1 } else x).success_count
        = x.success_count := by split_ifs <;> rfl
    rw [hid, hsc]

theorem failCount_incFailure (db : List CleaningRule) (id j : Nat) :
    failCount (incFailure db id) j =
      failCount db j +
        (if j = id then ((db.filter (fun x => x.id == j)).length : Int) else 0) := by
  induction db with
  | nil => simp [failCount, incFailure]
  | cons x db ih =>
    rw [incFailure_cons, failCount_cons, failCount_cons, ih, List.filter_cons]
    have hid : (if x.id = id then { x with failure_count := x.failure_count + 1 } else x).id
        = x.id := by split_ifs <;> rfl
    have hfc : (if x.id = id then { x with failure_count := x.failure_count + 1 } else x).failure_count
        = x.failure_count + (if x.id = id then 1 else 0) := by split_ifs <;> simp
    rw [hid, hfc]
    split_ifs <;> simp_all [List.length_cons] <;> push_cast <;> omega

theorem applyRule_db_cases (compile : String → Option Compiled) (st : Store)
    (db : List CleaningRule) (d : RecipeDict) (r : CleaningRule) :
    (applyRuleToData compile st db d r).2.1 = incSuccess db r.id ∨
    (applyRuleToData compile st db d r).2.1 = incFailure db r.id := by
  unfold applyRuleToData
  cases compile r.pattern with
  | none => right; rfl
  | some c =>
    simp only
    split_ifs <;>
      first
        | (left; rfl)
        | (right; rfl)
        | (cases c r.replacement (d.description.getD "") <;>
            first
              | (left; rfl)
              | (right; rfl))

theorem counterLE_refl (db : List CleaningRule) : counterLE db db :=
  fun _ => ⟨le_refl _, le_refl _⟩

theorem counterLE_trans {a b c : List CleaningRule}
    (h1 : counterLE a b) (h2 : counterLE b c) : counterLE a c :=
  fun id => ⟨(h1 id).1.trans (h2 id).1, (h1 id).2.trans (h2 id).2⟩

theorem counterLE_incSuccess (db : List CleaningRule) (id : Nat) :
    counterLE db (incSuccess db id) := by
  intro j
  rw [succCount_incSuccess, failCount_incSuccess]
  refine ⟨?_, le_refl _⟩
  split_ifs <;> simp

theorem counterLE_incFailure (db : List CleaningRule) (id : Nat) :
    counterLE db (incFailure db id) := by
  intro j
  rw [succCount_incFailure, failCount_incFailure]
  refine ⟨le_refl _, ?_⟩
  split_ifs <;> simp

theorem counterLE_applyRule (compile : String → Option Compiled) (st : Store)
    (db : List CleaningRule) (d : RecipeDict) (r : CleaningRule) :
    counterLE db (applyRuleToData compile st db d r).2.1 := by
  rcases applyRule_db_cases compile st db d r with h | h <;> rw [h]
  · exact counterLE_incSuccess db r.id
  · exact counterLE_incFailure db r.id

theorem counterLE_foldl {β : Type} (f : (Store × List CleaningRule × RecipeDict) → β →
      (Store × List CleaningRule × RecipeDict))
    (hf : ∀ acc b, counterLE acc.2.1 (f acc b).2.1) :
    ∀ (l : List β) (acc : Store × List CleaningRule × RecipeDict),
      counterLE acc.2.1 (l.foldl f acc).2.1 := by
  intro l
  induction l with
  | nil => intro acc; exact counterLE_refl _
  | cons b l ih => intro acc; exact counterLE_trans (hf acc b) (ih (f acc b))

theorem counterLE_apply_rules (compile : String → Option Compiled) (st : Store)
    (db : List CleaningRule) (rules : Rules) (d : RecipeDict) (cat : Option String) :
    counterLE db (apply_rules compile st db rules d cat).2.1 := by
  unfold apply_rules
  have hstep : ∀ (acc : Store × List CleaningRule × RecipeDict) (r : CleaningRule),
      counterLE acc.2.1 (ruleStep compile acc r).2.1 :=
    fun acc r => counterLE_applyRule compile acc.1 acc.2.1 acc.2.2 r
  cases cat with
  | none => exact counterLE_foldl (ruleStep compile) hstep rules.general (st, db, d)
  | some c =>
    exact counterLE_trans
      (counterLE_foldl (ruleStep compile) hstep rules.general (st, db, d))
      (counterLE_foldl (ruleStep compile) hstep (rulesGet rules c) _)

theorem counterLE_post_process (compile : String → Option Compiled) (st : Store)
    (db : List CleaningRule) (d : RecipeDict) :
    counterLE db (post_process compile st db d).2.1 := by
  unfold post_process
  exact counterLE_foldl _
    (fun acc c => counterLE_apply_rules compile acc.1 acc.2.1 (load_rules db) acc.2.2
      (Option.some c))
    ["general", "ingredient", "instruction", "description"] (st, db, d)

theorem counterLE_adaptive (compile : String → Option Compiled)
    (baseClean : String → RecipeVal → RecipeVal) (showD : RecipeVal → String)
    (fdb : List Feedback) (exc : ExcPoint) (st : Store) (db : List CleaningRule)
    (rules : Rules) (prompt : String) (d : RecipeDict) (ena : Bool) :
    counterLE db (adaptiveCleanRecipe compile baseClean showD fdb exc st db rules
      prompt d ena).db := by
  unfold adaptiveCleanRecipe
  cases ena with
  | false => exact counterLE_refl db
  | true =>
    simp only [Bool.not_true]
    cases exc with
    | atExamples => exact counterLE_apply_rules compile st db rules d Option.none
    | atAI => exact counterLE_apply_rules compile st db rules d Option.none
    | atPost => exact counterLE_apply_rules compile st db rules d Option.none
    | noExc =>
      exact counterLE_trans
        (counterLE_apply_rules compile st db rules d Option.none)
        (counterLE_post_process compile _ _ _)

theorem counterLE_runAll (runs : List RunArgs) :
    ∀ db : List CleaningRule, counterLE db (runAll runs db) := by
  induction runs with
  | nil => intro db; exact counterLE_refl db
  | cons a runs ih =>
    intro db
    exact counterLE_trans
      (counterLE_adaptive a.compile a.baseClean a.showD a.fdb a.exc a.st db a.rules
        a.prompt a.d a.enableAdaptive)
      (ih (runPipeline a db))

/-- C6: per application attempt exactly one of the rule's counters moves, by
    exactly 1 — success_count when no exception occurs, failure_count when
    one does — both counters are non-decreasing under every attempt and
    across any sequence of pipeline runs, and success_rate equals
    success/(success+failure)*100, defined as 0 when there are no attempts.
    The hypothesis states that the rule is a persisted row (its id occurs
    once in the table). -/
theorem rule_counter_invariants (compile : String → Option Compiled) (st : Store)
    (db : List CleaningRule) (d : RecipeDict) (r : CleaningRule)
    (h : (db.filter (fun x => x.id == r.id)).length = 1) :
    ((succCount (applyRuleToData compile st db d r).2.1 r.id = succCount db r.id + 1
        ∧ failCount (applyRuleToData compile st db d r).2.1 r.id = failCount db r.id)
      ∨ (succCount (applyRuleToData compile st db d r).2.1 r.id = succCount db r.id
        ∧ failCount (applyRuleToData compile st db d r).2.1 r.id = failCount db r.id + 1))
    ∧ counterLE db (applyRuleToData compile st db d r).2.1
    ∧ (∀ (runs : List RunArgs) (db0 : List CleaningRule), counterLE db0 (runAll runs db0))
    ∧ (∀ q : CleaningRule, success_rate q =
        (if 0 < q.success_count + q.failure_count
         then (q.success_count : ℚ) / ((q.success_count : ℚ) + (q.failure_count : ℚ)) * 100
         else 0)) := by
  refine ⟨?_, counterLE_applyRule compile st db d r,
    fun runs db0 => counterLE_runAll runs db0, fun q => rfl⟩
  rcases applyRule_db_cases compile st db d r with hc | hc <;> rw [hc]
  · left
    constructor
    · rw [succCount_incSuccess, if_pos rfl, h]
      norm_num
    · rw [failCount_incSuccess]
  · right
    constructor
    · rw [succCount_incFailure]
    · rw [failCount_incFailure, if_pos rfl, h]
      norm_num

/-- Witness for rule_counter_invariants on a one-rule table. -/
theorem rule_counter_invariants_witness :
    ([grule].filter (fun x => x.id == grule.id)).length = 1 ∧
    counterLE [grule] (applyRuleToData simpleCompile cexStore [grule] cexDict grule).2.1 :=
  ⟨by decide,
    (rule_counter_invariants simpleCompile cexStore [grule] cexDict grule (by decide)).2.1⟩
